import Mathlib

/-
Verification of scripts/get-common-values.py: the taginfo frequency-harvesting
and candidate-selection algorithm.

The embedding models the core function `get_common_values(key, min_count,
settings, exclude)`:
  - a `FrequencyRecord` is one taginfo object, its `value` string and `count`;
  - `Settings` carries `taginfo_url`, the optional `max_page` entry (read with
    default 100) and the global `common_exclusions` list;
  - the service is a function `srv : Nat → List FrequencyRecord` giving the
    decoded `data` array for each requested page number;
  - the `for page in count(1)` loop becomes `fetchLoop`, recursion on an
    explicit fuel parameter (the Python loop is unbounded, so termination is a
    property to be proved, not assumed); a run that exhausts its fuel returns
    `none`, a run that hits the break condition returns `some` final state;
  - the mutable `candidates` list and `found` set become the `SelState`
    record threaded through the loop;
  - the variant `fetchLoopE` models the same loop over a service whose page
    requests can fail (network error or JSON decode error), as
    `urllib.request.urlopen` / `json.loads` can raise; `harvestAll` and
    `mainRun` model the structure of `main()`: every key is harvested before
    any database action happens, and the database actions end in one commit.
-/

namespace CommonValues

/-- One taginfo value record: the fields `value` and `count` of one object of
the `data` array. -/
structure FrequencyRecord where
  value : String
  count : Nat
deriving DecidableEq

/-- The `settings` mapping of the configuration file, restricted to the keys
`get_common_values` reads: `taginfo_url`, `max_page` (optional, read with
`settings.get("max_page", 100)`) and `common_exclusions`. -/
structure Settings where
  taginfo_url : String
  max_page : Option Nat
  common_exclusions : List String
deriving DecidableEq

/-- The mutable state of one `get_common_values` run: the `candidates` list
and the `found` set. -/
structure SelState where
  candidates : List String
  found : Finset String
deriving DecidableEq

/-- Initial state: `candidates = []`, `found = set()`. -/
def initState : SelState := ⟨[], ∅⟩

/-- `all_exclude = set(settings["common_exclusions"]).union(exclude)`. -/
def all_exclude (settings : Settings) (exclude : Finset String) : Finset String :=
  settings.common_exclusions.toFinset ∪ exclude

/-- `max_page = settings.get("max_page", 100)`. -/
def max_page_of (settings : Settings) : Nat :=
  settings.max_page.getD 100

/-- The URL built for one page request:
`f"(taginfo_url)/values?key=(key)&sortname=count&sortorder=desc&rp=(max_page)&page=(page)"`. -/
def requestUrl (settings : Settings) (key : String) (page : Nat) : String :=
  settings.taginfo_url ++ "/values?key=" ++ key
    ++ "&sortname=count&sortorder=desc&rp=" ++ toString (max_page_of settings)
    ++ "&page=" ++ toString page

/-- Python's `tag.strip()`: drop leading and trailing whitespace
characters. -/
def strip (s : String) : String :=
  ⟨((s.data.dropWhile Char.isWhitespace).reverse.dropWhile
      Char.isWhitespace).reverse⟩

/-- Python's `';' in tag`: the string contains a semicolon character. -/
def hasSep (s : String) : Bool :=
  s.data.contains ';'

/-- `check_include(x)` of the source, with the mutation of `found` made
explicit: returns the decision together with the new `found` set. The three
checks run in source order: count threshold, then value shape
(`len(tag.strip()) == 0` or `';' in tag` rejects), then exclusion membership
(which records the value into `found`). -/
def check_include (min_count : Nat) (ae : Finset String)
    (x : FrequencyRecord) (found : Finset String) : Bool × Finset String :=
  if x.count < min_count then (false, found)
  else if (strip x.value).length == 0 || hasSep x.value then (false, found)
  else if x.value ∈ ae then (false, insert x.value found)
  else (true, found)

/-- One step of the comprehension
`candidates += [x["value"] for x in page_data if check_include(x)]`:
run `check_include` on one record and append its value when accepted. -/
def processRecord (min_count : Nat) (ae : Finset String)
    (st : SelState) (x : FrequencyRecord) : SelState :=
  let r := check_include min_count ae x st.found
  if r.1 then ⟨st.candidates ++ [x.value], r.2⟩ else ⟨st.candidates, r.2⟩

/-- Process one page's `data` array in order. -/
def processPage (min_count : Nat) (ae : Finset String)
    (st : SelState) (page : List FrequencyRecord) : SelState :=
  page.foldl (processRecord min_count ae) st

/-- The break condition of the page loop:
`(len(page_data) == 0) or (page_data[0]["count"] < min_count)`. -/
def isStopPage (min_count : Nat) (page : List FrequencyRecord) : Bool :=
  match page with
  | [] => true
  | x :: _ => x.count < min_count

/-- The `for page in count(1)` loop with an explicit fuel bound: request page
`page`, break on the stop condition, otherwise filter the page into the state
and continue with page `page + 1`. `none` means the fuel ran out before the
loop broke. -/
def fetchLoop (min_count : Nat) (ae : Finset String)
    (srv : Nat → List FrequencyRecord) :
    Nat → Nat → SelState → Option SelState
  | 0, _, _ => none
  | fuel + 1, page, st =>
    let page_data := srv page
    if isStopPage min_count page_data then some st
    else fetchLoop min_count ae srv fuel (page + 1)
      (processPage min_count ae st page_data)

/-- A whole `get_common_values` run, returning the final loop state
(candidates and found set). -/
def get_common_values_run (min_count : Nat) (settings : Settings)
    (exclude : Finset String) (srv : Nat → List FrequencyRecord)
    (fuel : Nat) : Option SelState :=
  fetchLoop min_count (all_exclude settings exclude) srv fuel 1 initState

/-- `get_common_values`: returns the `candidates` list. The `key` parameter
only selects which service data is consulted, which the `srv` argument
already fixes. -/
def get_common_values (key : String) (min_count : Nat) (settings : Settings)
    (exclude : Finset String) (srv : Nat → List FrequencyRecord)
    (fuel : Nat) : Option (List String) :=
  (get_common_values_run min_count settings exclude srv fuel).map SelState.candidates

/-- `notfound = all_exclude - found`, computed from the final state of a
run. -/
def notfound_run (min_count : Nat) (settings : Settings)
    (exclude : Finset String) (srv : Nat → List FrequencyRecord)
    (fuel : Nat) : Option (Finset String) :=
  (get_common_values_run min_count settings exclude srv fuel).map
    (fun st => all_exclude settings exclude \ st.found)

/-- A page request failure: `urllib.request.urlopen` raising (network), or
`json.loads` / the `["data"]` access raising (decode). -/
inductive FetchFailure where
  | network
  | decode
deriving DecidableEq

/-- The page loop over a fallible service: a failed page request propagates
immediately (the `with urllib.request.urlopen(...)` body is not wrapped in
any try/except, and no page is ever requested twice). -/
def fetchLoopE (min_count : Nat) (ae : Finset String)
    (srvE : Nat → Except FetchFailure (List FrequencyRecord)) :
    Nat → Nat → SelState → Option (Except FetchFailure SelState)
  | 0, _, _ => none
  | fuel + 1, page, st =>
    match srvE page with
    | .error e => some (.error e)
    | .ok page_data =>
      if isStopPage min_count page_data then some (.ok st)
      else fetchLoopE min_count ae srvE fuel (page + 1)
        (processPage min_count ae st page_data)

/-- The per-key entry of the `keys` mapping of the configuration file:
`min_count` and the optional `exclusions` list. -/
structure KeyCfg where
  min_count : Nat
  exclusions : List String
deriving DecidableEq

/-- The harvesting loop of `main()`:
`for key, val in keys.items(): results[key] = get_common_values(...)`.
An exception in any key's harvest propagates out of the loop; otherwise the
per-key candidate lists are collected in key order. -/
def harvestAll (settings : Settings)
    (srvE : String → Nat → Except FetchFailure (List FrequencyRecord))
    (fuel : Nat) :
    List (String × KeyCfg) → Option (Except FetchFailure (List (String × List String)))
  | [] => some (.ok [])
  | (k, cfg) :: rest =>
    match fetchLoopE cfg.min_count (all_exclude settings cfg.exclusions.toFinset)
      (srvE k) fuel 1 initState with
    | none => none
    | some (.error e) => some (.error e)
    | some (.ok st) =>
      match harvestAll settings srvE fuel rest with
      | none => none
      | some (.error e) => some (.error e)
      | some (.ok others) => some (.ok ((k, st.candidates) :: others))

/-- One observable database action of `main()`'s persistence phase. -/
inductive DbAction where
  | connect
  | dropTable
  | createTable
  | insertRows (key : String) (vals : List String)
  | grant
  | commit
deriving DecidableEq

/-- The database action trace `main()` performs once all harvesting
succeeded: connect, drop, create, one bulk insert per key in order, grant,
then the single commit. -/
def dbTrace (results : List (String × List String)) : List DbAction :=
  [DbAction.connect, DbAction.dropTable, DbAction.createTable]
    ++ results.map (fun kv => DbAction.insertRows kv.1 kv.2)
    ++ [DbAction.grant, DbAction.commit]

/-- The structure of `main()` (update path): harvest every key first; only
when every harvest succeeded, perform the database actions. An exception
during harvesting aborts the run before any database action. -/
def mainRun (settings : Settings)
    (srvE : String → Nat → Except FetchFailure (List FrequencyRecord))
    (fuel : Nat) (keys : List (String × KeyCfg)) :
    Option (Except FetchFailure (List DbAction)) :=
  match harvestAll settings srvE fuel keys with
  | none => none
  | some (.error e) => some (.error e)
  | some (.ok results) => some (.ok (dbTrace results))

/-- Case analysis of one `processRecord` step, following the order of the
checks in `check_include`. -/
theorem processRecord_eq (mc : Nat) (ae : Finset String) (st : SelState)
    (x : FrequencyRecord) :
    processRecord mc ae st x =
      if x.count < mc then st
      else if (strip x.value).length == 0 || hasSep x.value then st
      else if x.value ∈ ae then ⟨st.candidates, insert x.value st.found⟩
      else ⟨st.candidates ++ [x.value], st.found⟩ := by
  unfold processRecord check_include
  by_cases h1 : x.count < mc
  · simp [h1]
  · by_cases h2 : ((strip x.value).length == 0 || hasSep x.value) = true
    · simp [h1, h2]
    · by_cases h3 : x.value ∈ ae
      · simp [h1, h2, h3]
      · simp [h1, h2, h3]

/-- Membership in `candidates` after one `processRecord` step. -/
theorem mem_processRecord_candidates (mc : Nat) (ae : Finset String)
    (st : SelState) (x : FrequencyRecord) (v : String) :
    v ∈ (processRecord mc ae st x).candidates ↔
      v ∈ st.candidates ∨
        (v = x.value ∧ mc ≤ x.count ∧ (strip x.value).length ≠ 0 ∧
          hasSep x.value = false ∧ x.value ∉ ae) := by
  rw [processRecord_eq]
  by_cases h1 : x.count < mc
  · simp [h1, Nat.not_le.mpr h1]
  · rw [if_neg h1]
    by_cases h2 : ((strip x.value).length == 0 || hasSep x.value) = true
    · rw [if_pos h2]
      simp only [Bool.or_eq_true, beq_iff_eq] at h2
      rcases h2 with h2 | h2
      · simp [h2]
      · simp [h2]
    · rw [if_neg h2]
      simp only [Bool.or_eq_true, beq_iff_eq, not_or] at h2
      obtain ⟨h2a, h2b⟩ := h2
      by_cases h3 : x.value ∈ ae
      · simp [h3]
      · simp [h3, Nat.not_lt.mp h1, h2a, Bool.not_eq_true _ ▸ h2b]

/-- Membership in `found` after one `processRecord` step. -/
theorem mem_processRecord_found (mc : Nat) (ae : Finset String)
    (st : SelState) (x : FrequencyRecord) (v : String) :
    v ∈ (processRecord mc ae st x).found ↔
      v ∈ st.found ∨
        (v = x.value ∧ mc ≤ x.count ∧ (strip x.value).length ≠ 0 ∧
          hasSep x.value = false ∧ x.value ∈ ae) := by
  rw [processRecord_eq]
  by_cases h1 : x.count < mc
  · simp [h1, Nat.not_le.mpr h1]
  · rw [if_neg h1]
    by_cases h2 : ((strip x.value).length == 0 || hasSep x.value) = true
    · rw [if_pos h2]
      simp only [Bool.or_eq_true, beq_iff_eq] at h2
      rcases h2 with h2 | h2
      · simp [h2]
      · simp [h2]
    · rw [if_neg h2]
      simp only [Bool.or_eq_true, beq_iff_eq, not_or] at h2
      obtain ⟨h2a, h2b⟩ := h2
      by_cases h3 : x.value ∈ ae
      · simp [h3, Finset.mem_insert, Nat.not_lt.mp h1, h2a, Bool.not_eq_true _ ▸ h2b]
        tauto
      · simp [h3]

/-- Membership in `candidates` after filtering one whole page. -/
theorem mem_processPage_candidates (mc : Nat) (ae : Finset String)
    (page : List FrequencyRecord) :
    ∀ (st : SelState) (v : String),
    v ∈ (processPage mc ae st page).candidates ↔
      v ∈ st.candidates ∨
        ∃ x ∈ page, v = x.value ∧ mc ≤ x.count ∧ (strip x.value).length ≠ 0 ∧
          hasSep x.value = false ∧ x.value ∉ ae := by
  induction page with
  | nil => intro st v; simp [processPage]
  | cons y ys ih =>
    intro st v
    have hstep : processPage mc ae st (y :: ys)
        = processPage mc ae (processRecord mc ae st y) ys := rfl
    rw [hstep, ih, mem_processRecord_candidates]
    simp only [List.mem_cons]
    constructor
    · rintro ((hv | hy) | ⟨x, hx, hrest⟩)
      · exact Or.inl hv
      · exact Or.inr ⟨y, Or.inl rfl, hy⟩
      · exact Or.inr ⟨x, Or.inr hx, hrest⟩
    · rintro (hv | ⟨x, (rfl | hx), hrest⟩)
      · exact Or.inl (Or.inl hv)
      · exact Or.inl (Or.inr hrest)
      · exact Or.inr ⟨x, hx, hrest⟩

/-- Membership in `found` after filtering one whole page. -/
theorem mem_processPage_found (mc : Nat) (ae : Finset String)
    (page : List FrequencyRecord) :
    ∀ (st : SelState) (v : String),
    v ∈ (processPage mc ae st page).found ↔
      v ∈ st.found ∨
        ∃ x ∈ page, v = x.value ∧ mc ≤ x.count ∧ (strip x.value).length ≠ 0 ∧
          hasSep x.value = false ∧ x.value ∈ ae := by
  induction page with
  | nil => intro st v; simp [processPage]
  | cons y ys ih =>
    intro st v
    have hstep : processPage mc ae st (y :: ys)
        = processPage mc ae (processRecord mc ae st y) ys := rfl
    rw [hstep, ih, mem_processRecord_found]
    simp only [List.mem_cons]
    constructor
    · rintro ((hv | hy) | ⟨x, hx, hrest⟩)
      · exact Or.inl hv
      · exact Or.inr ⟨y, Or.inl rfl, hy⟩
      · exact Or.inr ⟨x, Or.inr hx, hrest⟩
    · rintro (hv | ⟨x, (rfl | hx), hrest⟩)
      · exact Or.inl (Or.inl hv)
      · exact Or.inl (Or.inr hrest)
      · exact Or.inr ⟨x, hx, hrest⟩

/-- Membership in `candidates` after filtering a list of pages. -/
theorem mem_foldl_processPage_candidates (mc : Nat) (ae : Finset String)
    (pages : List (List FrequencyRecord)) :
    ∀ (st : SelState) (v : String),
    v ∈ (pages.foldl (processPage mc ae) st).candidates ↔
      v ∈ st.candidates ∨
        ∃ pg ∈ pages, ∃ x ∈ pg, v = x.value ∧ mc ≤ x.count ∧
          (strip x.value).length ≠ 0 ∧ hasSep x.value = false ∧
          x.value ∉ ae := by
  induction pages with
  | nil => intro st v; simp
  | cons pg pgs ih =>
    intro st v
    rw [List.foldl_cons, ih, mem_processPage_candidates]
    simp only [List.mem_cons]
    constructor
    · rintro ((hv | hy) | ⟨q, hq, hrest⟩)
      · exact Or.inl hv
      · exact Or.inr ⟨pg, Or.inl rfl, hy⟩
      · exact Or.inr ⟨q, Or.inr hq, hrest⟩
    · rintro (hv | ⟨q, (rfl | hq), hrest⟩)
      · exact Or.inl (Or.inl hv)
      · exact Or.inl (Or.inr hrest)
      · exact Or.inr ⟨q, hq, hrest⟩

/-- Membership in `found` after filtering a list of pages. -/
theorem mem_foldl_processPage_found (mc : Nat) (ae : Finset String)
    (pages : List (List FrequencyRecord)) :
    ∀ (st : SelState) (v : String),
    v ∈ (pages.foldl (processPage mc ae) st).found ↔
      v ∈ st.found ∨
        ∃ pg ∈ pages, ∃ x ∈ pg, v = x.value ∧ mc ≤ x.count ∧
          (strip x.value).length ≠ 0 ∧ hasSep x.value = false ∧
          x.value ∈ ae := by
  induction pages with
  | nil => intro st v; simp
  | cons pg pgs ih =>
    intro st v
    rw [List.foldl_cons, ih, mem_processPage_found]
    simp only [List.mem_cons]
    constructor
    · rintro ((hv | hy) | ⟨q, hq, hrest⟩)
      · exact Or.inl hv
      · exact Or.inr ⟨pg, Or.inl rfl, hy⟩
      · exact Or.inr ⟨q, Or.inr hq, hrest⟩
    · rintro (hv | ⟨q, (rfl | hq), hrest⟩)
      · exact Or.inl (Or.inl hv)
      · exact Or.inl (Or.inr hrest)
      · exact Or.inr ⟨q, hq, hrest⟩

/-- Full characterization of a terminating `fetchLoop` run starting at page
`p`: there is a first stop page `N`, the loop requests exactly pages `p` to
`N`, the final state is the fold of the filter over pages `p` to `N - 1`
(the stop page contributes nothing), and any service agreeing with `srv` on
pages up to `N` produces the same run (pages past `N` are never
requested). -/
theorem fetchLoop_spec (mc : Nat) (ae : Finset String)
    (srv : Nat → List FrequencyRecord) :
    ∀ (fuel p : Nat) (st0 st : SelState),
    fetchLoop mc ae srv fuel p st0 = some st →
    ∃ N, p ≤ N ∧ N < p + fuel ∧ isStopPage mc (srv N) = true ∧
      (∀ k, p ≤ k → k < N → isStopPage mc (srv k) = false) ∧
      st = ((List.range' p (N - p)).map srv).foldl (processPage mc ae) st0 ∧
      ∀ srv' : Nat → List FrequencyRecord,
        (∀ k, p ≤ k → k ≤ N → srv' k = srv k) →
        fetchLoop mc ae srv' fuel p st0 = some st := by
  intro fuel
  induction fuel with
  | zero => intro p st0 st h; simp [fetchLoop] at h
  | succ fuel ih =>
    intro p st0 st h
    by_cases hs : isStopPage mc (srv p) = true
    · have hst : st0 = st := by simpa [fetchLoop, hs] using h
      refine ⟨p, Nat.le_refl p, by omega, hs, ?_, ?_, ?_⟩
      · intro k hk1 hk2; omega
      · simp [hst]
      · intro srv' hagree
        have hp : srv' p = srv p := hagree p (Nat.le_refl p) (Nat.le_refl p)
        simp [fetchLoop, hp, hs, hst]
    · have hb : isStopPage mc (srv p) = false := by
        cases hx : isStopPage mc (srv p)
        · rfl
        · exact absurd hx hs
      have h' : fetchLoop mc ae srv fuel (p + 1)
          (processPage mc ae st0 (srv p)) = some st := by
        simpa [fetchLoop, hb] using h
      obtain ⟨N, hN1, hN2, hN3, hN4, hN5, hN6⟩ := ih (p + 1) _ st h'
      refine ⟨N, by omega, by omega, hN3, ?_, ?_, ?_⟩
      · intro k hk1 hk2
        rcases Nat.eq_or_lt_of_le hk1 with heq | hlt
        · rw [← heq]; exact hb
        · exact hN4 k hlt hk2
      · have hd : N - p = (N - (p + 1)) + 1 := by omega
        rw [hd, List.range'_succ, List.map_cons, List.foldl_cons]
        exact hN5
      · intro srv' hagree
        have hp : srv' p = srv p := hagree p (Nat.le_refl p) (by omega)
        have hunf : fetchLoop mc ae srv' (fuel + 1) p st0
            = fetchLoop mc ae srv' fuel (p + 1)
              (processPage mc ae st0 (srv' p)) := by
          simp [fetchLoop, hp, hb]
        rw [hunf, hp]
        exact hN6 srv' (fun k hk1 hk2 => hagree k (by omega) hk2)

/-- If the stop condition holds at page `p + d`, the loop started at page `p`
halts within `d + 1` iterations. -/
theorem fetchLoop_reaches_stop (mc : Nat) (ae : Finset String)
    (srv : Nat → List FrequencyRecord) :
    ∀ (d p : Nat) (st0 : SelState),
    isStopPage mc (srv (p + d)) = true →
    ∃ st, fetchLoop mc ae srv (d + 1) p st0 = some st := by
  intro d
  induction d with
  | zero =>
    intro p st0 hstop
    rw [Nat.add_zero] at hstop
    exact ⟨st0, by simp [fetchLoop, hstop]⟩
  | succ d ih =>
    intro p st0 hstop
    by_cases hs : isStopPage mc (srv p) = true
    · exact ⟨st0, by simp [fetchLoop, hs]⟩
    · have hb : isStopPage mc (srv p) = false := by
        cases hx : isStopPage mc (srv p)
        · rfl
        · exact absurd hx hs
      have hstop' : isStopPage mc (srv ((p + 1) + d)) = true := by
        have : (p + 1) + d = p + (d + 1) := by omega
        rw [this]; exact hstop
      obtain ⟨st, hst⟩ := ih (p + 1) (processPage mc ae st0 (srv p)) hstop'
      exact ⟨st, by simp [fetchLoop, hb]; exact hst⟩

/-- If pages `p` to `p + d - 1` all succeed without triggering the stop
condition and the request for page `p + d` fails, the loop propagates that
failure. -/
theorem fetchLoopE_error (mc : Nat) (ae : Finset String)
    (srvE : Nat → Except FetchFailure (List FrequencyRecord)) (e : FetchFailure) :
    ∀ (d p fuel : Nat) (st0 : SelState),
    d < fuel →
    (∀ k, p ≤ k → k < p + d →
      ∃ pg, srvE k = .ok pg ∧ isStopPage mc pg = false) →
    srvE (p + d) = .error e →
    fetchLoopE mc ae srvE fuel p st0 = some (.error e) := by
  intro d
  induction d with
  | zero =>
    intro p fuel st0 hfuel hok herr
    rw [Nat.add_zero] at herr
    obtain ⟨fuel', rfl⟩ : ∃ fuel', fuel = fuel' + 1 :=
      ⟨fuel - 1, by omega⟩
    simp [fetchLoopE, herr]
  | succ d ih =>
    intro p fuel st0 hfuel hok herr
    obtain ⟨fuel', rfl⟩ : ∃ fuel', fuel = fuel' + 1 :=
      ⟨fuel - 1, by omega⟩
    obtain ⟨pg, hpg, hns⟩ := hok p (Nat.le_refl p) (by omega)
    have herr' : srvE ((p + 1) + d) = .error e := by
      have : (p + 1) + d = p + (d + 1) := by omega
      rw [this]; exact herr
    have hok' : ∀ k, p + 1 ≤ k → k < (p + 1) + d →
        ∃ pg, srvE k = .ok pg ∧ isStopPage mc pg = false := by
      intro k hk1 hk2
      exact hok k (by omega) (by omega)
    have := ih (p + 1) fuel' (processPage mc ae st0 pg) (by omega) hok' herr'
    simp [fetchLoopE, hpg, hns]
    exact this

/-- If the whole harvest succeeded, every configured key's page loop ended in
a successful state. -/
theorem harvestAll_ok_all (settings : Settings)
    (srvE : String → Nat → Except FetchFailure (List FrequencyRecord))
    (fuel : Nat) :
    ∀ (keys : List (String × KeyCfg)) (results : List (String × List String)),
    harvestAll settings srvE fuel keys = some (.ok results) →
    ∀ kc ∈ keys, ∃ st, fetchLoopE kc.2.min_count
      (all_exclude settings kc.2.exclusions.toFinset) (srvE kc.1)
      fuel 1 initState = some (.ok st) := by
  intro keys
  induction keys with
  | nil => intro results h kc hkc; simp at hkc
  | cons hd tl ih =>
    intro results h kc hkc
    obtain ⟨k, cfg⟩ := hd
    rw [harvestAll] at h
    rcases hloop : fetchLoopE cfg.min_count
        (all_exclude settings cfg.exclusions.toFinset) (srvE k)
        fuel 1 initState with _ | res
    · rw [hloop] at h; simp at h
    · rw [hloop] at h
      rcases res with e | st
      · simp at h
      · rcases hrest : harvestAll settings srvE fuel tl with _ | res'
        · rw [hrest] at h; simp at h
        · rw [hrest] at h
          rcases res' with e' | others
          · simp at h
          · rcases List.mem_cons.mp hkc with rfl | htl
            · exact ⟨st, hloop⟩
            · exact ih others hrest kc htl

/-- Settings with an empty global exclusion list and page size 2. -/
def settingsPlain : Settings :=
  ⟨"https://taginfo.openstreetmap.org/api/4", some 2, []⟩

/-- Settings whose global exclusion list contains the value `no`. -/
def settingsNoExcl : Settings :=
  ⟨"https://taginfo.openstreetmap.org/api/4", some 2, ["no"]⟩

/-- Scenario A/B service: page 1 has `yes` (120) and `no` (80), page 2 has
`maybe` (40), later pages are empty. -/
def srvA : Nat → List FrequencyRecord
  | 1 => [⟨"yes", 120⟩, ⟨"no", 80⟩]
  | 2 => [⟨"maybe", 40⟩]
  | _ => []

/-- A service agreeing with `srvA` on pages 1 and 2 but with data on
page 3. -/
def srvAbig : Nat → List FrequencyRecord
  | 1 => [⟨"yes", 120⟩, ⟨"no", 80⟩]
  | 2 => [⟨"maybe", 40⟩]
  | 3 => [⟨"huge", 1000⟩]
  | _ => []

/-- A service where the value `yes` occurs in two qualifying records on two
different pages. -/
def srvDup : Nat → List FrequencyRecord
  | 1 => [⟨"yes", 100⟩]
  | 2 => [⟨"yes", 90⟩]
  | _ => []

/-- Claim C1: for every key and every sequence of pages returned by the
service, the candidate list returned by `get_common_values` never contains a
value below the key's `min_count` threshold (every candidate stems from a
service record with count at or above it), never contains a value of the
exclusion universe (global `common_exclusions` united with the key-specific
exclusions), and never contains a value that is empty after trimming or that
contains the `;` separator. -/
theorem C1_candidatelist_invariant (key : String) (mc : Nat)
    (settings : Settings) (exclude : Finset String)
    (srv : Nat → List FrequencyRecord) (fuel : Nat) (out : List String)
    (h : get_common_values key mc settings exclude srv fuel = some out) :
    ∀ v ∈ out, v ∉ all_exclude settings exclude ∧ (strip v).length ≠ 0 ∧
      hasSep v = false ∧
      ∃ n x, 1 ≤ n ∧ x ∈ srv n ∧ x.value = v ∧ mc ≤ x.count := by
  unfold get_common_values get_common_values_run at h
  obtain ⟨st, hrun, hout⟩ := Option.map_eq_some'.mp h
  obtain ⟨N, hN1, hN2, hN3, hN4, hN5, hN6⟩ :=
    fetchLoop_spec mc (all_exclude settings exclude) srv fuel 1 initState st hrun
  intro v hv
  rw [← hout, hN5] at hv
  rcases (mem_foldl_processPage_candidates _ _ _ _ _).mp hv with
    h0 | ⟨pg, hpg, x, hx, rfl, hcnt, hs1, hs2, hae⟩
  · simp [initState] at h0
  · obtain ⟨n, hn, rfl⟩ := List.mem_map.mp hpg
    have hn' : 1 ≤ n := (List.mem_range'_1.mp hn).1
    exact ⟨hae, hs1, hs2, n, x, hn', hx, rfl, hcnt⟩

/-- Witness for C1 on the Scenario A service. -/
theorem C1_witness :
    (get_common_values "amenity" 50 settingsPlain ∅ srvA 5
      = some ["yes", "no"]) ∧
    (∀ v ∈ ["yes", "no"], v ∉ all_exclude settingsPlain ∅ ∧
      (strip v).length ≠ 0 ∧ hasSep v = false ∧
      ∃ n x, 1 ≤ n ∧ x ∈ srvA n ∧ x.value = v ∧ 50 ≤ x.count) :=
  ⟨by decide,
    C1_candidatelist_invariant "amenity" 50 settingsPlain ∅ srvA 5
      ["yes", "no"] (by decide)⟩

/-- Claim C2: the page loop requests pages starting at index 1 and
incrementing by 1, stops exactly at the first page whose data array is empty
or whose first record's count is below `min_count`, yields none of the
stopping page's records (the final state is the fold over the pages strictly
before it), and requests no page past the stopping one (any service agreeing
up to the stopping page yields the same run). -/
theorem C2_page_loop_termination (mc : Nat) (settings : Settings)
    (exclude : Finset String) (srv : Nat → List FrequencyRecord)
    (fuel : Nat) (st : SelState)
    (h : get_common_values_run mc settings exclude srv fuel = some st) :
    ∃ N, 1 ≤ N ∧ isStopPage mc (srv N) = true ∧
      (∀ k, 1 ≤ k → k < N → isStopPage mc (srv k) = false) ∧
      st = ((List.range' 1 (N - 1)).map srv).foldl
        (processPage mc (all_exclude settings exclude)) initState ∧
      (∀ srv', (∀ k, 1 ≤ k → k ≤ N → srv' k = srv k) →
        get_common_values_run mc settings exclude srv' fuel = some st) := by
  unfold get_common_values_run at h ⊢
  obtain ⟨N, hN1, hN2, hN3, hN4, hN5, hN6⟩ :=
    fetchLoop_spec mc (all_exclude settings exclude) srv fuel 1 initState st h
  exact ⟨N, hN1, hN3, hN4, hN5, fun srv' hsrv => hN6 srv' hsrv⟩

/-- Witness for C2 on the Scenario A service. -/
theorem C2_witness :
    (get_common_values_run 50 settingsPlain ∅ srvA 5
      = some ⟨["yes", "no"], ∅⟩) ∧
    (∃ N, 1 ≤ N ∧ isStopPage 50 (srvA N) = true ∧
      (∀ k, 1 ≤ k → k < N → isStopPage 50 (srvA k) = false) ∧
      (⟨["yes", "no"], ∅⟩ : SelState)
        = ((List.range' 1 (N - 1)).map srvA).foldl
          (processPage 50 (all_exclude settingsPlain ∅)) initState ∧
      (∀ srv', (∀ k, 1 ≤ k → k ≤ N → srv' k = srvA k) →
        get_common_values_run 50 settingsPlain ∅ srv' 5
          = some ⟨["yes", "no"], ∅⟩)) :=
  ⟨by decide,
    C2_page_loop_termination 50 settingsPlain ∅ srvA 5
      ⟨["yes", "no"], ∅⟩ (by decide)⟩

/-- Claim C4: with threshold 50 and the Scenario A service, the run fetches
page 1 (not a stop page) and page 2 (the stop page, leading count 40 < 50),
never consults page 3 (a service with different data on page 3 gives the same
result), and returns exactly the candidates `yes`, `no` in that order; with
`no` additionally in the global exclusion set it returns only `yes` and
records `no` as a found exclusion. -/
theorem C4_scenarios :
    get_common_values "x" 50 settingsPlain ∅ srvA 5 = some ["yes", "no"] ∧
    isStopPage 50 (srvA 1) = false ∧
    isStopPage 50 (srvA 2) = true ∧
    srvAbig 1 = srvA 1 ∧ srvAbig 2 = srvA 2 ∧ srvAbig 3 ≠ srvA 3 ∧
    get_common_values "x" 50 settingsPlain ∅ srvAbig 5 = some ["yes", "no"] ∧
    get_common_values "x" 50 settingsNoExcl ∅ srvA 5 = some ["yes"] ∧
    get_common_values_run 50 settingsNoExcl ∅ srvA 5
      = some ⟨["yes"], {"no"}⟩ := by
  refine ⟨by decide, by decide, by decide, rfl, rfl, by decide, by decide,
    by decide, by decide⟩

/-- Claim C8: the candidate list is not deduplicated: the value `yes` occurs
in two distinct qualifying records on pages 1 and 2, and appears twice in the
returned candidate list. -/
theorem C8_no_dedup :
    srvDup 1 = [⟨"yes", 100⟩] ∧ srvDup 2 = [⟨"yes", 90⟩] ∧
    50 ≤ 100 ∧ 50 ≤ 90 ∧
    get_common_values "x" 50 settingsPlain ∅ srvDup 5
      = some ["yes", "yes"] := by
  refine ⟨rfl, rfl, by decide, by decide, by decide⟩

/-- Settings whose global exclusion list contains the shape-invalid value
`a;b`. -/
def settingsSemi : Settings :=
  ⟨"https://taginfo.openstreetmap.org/api/4", none, ["a;b"]⟩

/-- A service whose page 1 carries the excluded, semicolon-containing value
`a;b` with a count far above threshold. -/
def srvSemi : Nat → List FrequencyRecord
  | 1 => [⟨"a;b", 100⟩]
  | _ => []

/-- Claim C3 counterexample: the value `a;b` is in the exclusion universe and
appears on a fetched page with count 100 at or above the threshold 50, yet
after the run the found-exclusions set is empty: the value-shape check
(`';' in tag`) rejects the record before the exclusion check can record it
into `found`. -/
theorem C3_counterexample :
    "a;b" ∈ all_exclude settingsSemi ∅ ∧
    (⟨"a;b", 100⟩ : FrequencyRecord) ∈ srvSemi 1 ∧
    (50 : Nat) ≤ 100 ∧
    isStopPage 50 (srvSemi 1) = false ∧
    get_common_values_run 50 settingsSemi ∅ srvSemi 5 = some ⟨[], ∅⟩ ∧
    "a;b" ∉ (∅ : Finset String) :=
  ⟨by decide, by decide, by decide, by decide, by decide, by decide⟩

/-- Claim C3 (amended): every value of the exclusion universe that appears in
a fetched (pre-termination) record with count at or above `min_count` AND
that passes the value-shape check (non-empty after trimming, no `;`) is
absent from the candidate list and present in the found-exclusions set. -/
theorem C3_exclusion_found_amended (mc : Nat) (settings : Settings)
    (exclude : Finset String) (srv : Nat → List FrequencyRecord)
    (fuel n : Nat) (x : FrequencyRecord) (st : SelState)
    (hrun : get_common_values_run mc settings exclude srv fuel = some st)
    (hn : 1 ≤ n) (hx : x ∈ srv n)
    (hpre : ∀ k, 1 ≤ k → k ≤ n → isStopPage mc (srv k) = false)
    (hcount : mc ≤ x.count)
    (hs1 : (strip x.value).length ≠ 0) (hs2 : hasSep x.value = false)
    (hex : x.value ∈ all_exclude settings exclude) :
    x.value ∈ st.found ∧ x.value ∉ st.candidates := by
  unfold get_common_values_run at hrun
  obtain ⟨N, hN1, hN2, hN3, hN4, hN5, hN6⟩ :=
    fetchLoop_spec mc (all_exclude settings exclude) srv fuel 1 initState st hrun
  have hnN : n < N := by
    by_contra hcon
    push_neg at hcon
    have hfalse := hpre N hN1 hcon
    simp [hN3] at hfalse
  have hpg : srv n ∈ (List.range' 1 (N - 1)).map srv :=
    List.mem_map_of_mem srv (List.mem_range'_1.mpr ⟨hn, by omega⟩)
  constructor
  · rw [hN5]
    exact (mem_foldl_processPage_found _ _ _ _ _).mpr
      (Or.inr ⟨srv n, hpg, x, hx, rfl, hcount, hs1, hs2, hex⟩)
  · intro hc
    rw [hN5] at hc
    rcases (mem_foldl_processPage_candidates _ _ _ _ _).mp hc with
      h0 | ⟨pg, _, y, _, hv, _, _, _, hnot⟩
    · simp [initState] at h0
    · exact hnot (hv ▸ hex)

/-- Witness for the amended C3 on Scenario B: `no` is excluded, appears on
page 1 with count 80 ≥ 50 and valid shape; it ends in `found` and not in the
candidates. -/
theorem C3_witness :
    (get_common_values_run 50 settingsNoExcl ∅ srvA 5
        = some ⟨["yes"], {"no"}⟩ ∧
      (1 : Nat) ≤ 1 ∧ (⟨"no", 80⟩ : FrequencyRecord) ∈ srvA 1 ∧
      (50 : Nat) ≤ 80 ∧ (strip "no").length ≠ 0 ∧ hasSep "no" = false ∧
      "no" ∈ all_exclude settingsNoExcl ∅) ∧
    ("no" ∈ ({"no"} : Finset String) ∧ "no" ∉ ["yes"]) := by
  refine ⟨⟨by decide, by decide, by decide, by decide, by decide, by decide,
    by decide⟩, ?_⟩
  exact C3_exclusion_found_amended 50 settingsNoExcl ∅ srvA 5 1 ⟨"no", 80⟩
    ⟨["yes"], {"no"}⟩ (by decide) (by decide) (by decide)
    (fun k hk1 hk2 => by
      have hk : k = 1 := by omega
      subst hk
      decide)
    (by decide) (by decide) (by decide) (by decide)

/-- Claim C5: the exclusion universe is exactly the union of the global
exclusion set and the key-specific one, and the reported not-found set of a
run is exactly the exclusion universe minus the found set. -/
theorem C5_exclusion_universe_notfound (mc : Nat) (settings : Settings)
    (exclude : Finset String) (srv : Nat → List FrequencyRecord)
    (fuel : Nat) (st : SelState)
    (hrun : get_common_values_run mc settings exclude srv fuel = some st) :
    (∀ v, v ∈ all_exclude settings exclude ↔
      v ∈ settings.common_exclusions ∨ v ∈ exclude) ∧
    notfound_run mc settings exclude srv fuel
      = some (all_exclude settings exclude \ st.found) ∧
    (∀ v, v ∈ all_exclude settings exclude \ st.found ↔
      v ∈ all_exclude settings exclude ∧ v ∉ st.found) := by
  refine ⟨?_, ?_, ?_⟩
  · intro v
    simp [all_exclude]
  · simp [notfound_run, hrun]
  · intro v
    simp [Finset.mem_sdiff]

/-- Witness for C5 on Scenario B. -/
theorem C5_witness :
    (get_common_values_run 50 settingsNoExcl ∅ srvA 5
      = some ⟨["yes"], {"no"}⟩) ∧
    ((∀ v, v ∈ all_exclude settingsNoExcl ∅ ↔
      v ∈ settingsNoExcl.common_exclusions ∨ v ∈ (∅ : Finset String)) ∧
    notfound_run 50 settingsNoExcl ∅ srvA 5
      = some (all_exclude settingsNoExcl ∅ \
          (⟨["yes"], {"no"}⟩ : SelState).found) ∧
    (∀ v, v ∈ all_exclude settingsNoExcl ∅ \
        (⟨["yes"], {"no"}⟩ : SelState).found ↔
      v ∈ all_exclude settingsNoExcl ∅ ∧
        v ∉ (⟨["yes"], {"no"}⟩ : SelState).found)) :=
  ⟨by decide,
    C5_exclusion_universe_notfound 50 settingsNoExcl ∅ srvA 5
      ⟨["yes"], {"no"}⟩ (by decide)⟩

/-- Claim C6: `get_common_values` is deterministic: a second run with the
same key, threshold, settings and exclusions, against a service giving the
same response for every page the first run requested, returns the identical
candidate list (same members, same order). -/
theorem C6_deterministic (key : String) (mc : Nat) (settings : Settings)
    (exclude : Finset String) (srv srv' : Nat → List FrequencyRecord)
    (fuel : Nat) (out : List String)
    (h1 : get_common_values key mc settings exclude srv fuel = some out)
    (h2 : ∀ k, 1 ≤ k →
      (∀ j, 1 ≤ j → j < k → isStopPage mc (srv j) = false) →
      srv' k = srv k) :
    get_common_values key mc settings exclude srv' fuel = some out := by
  unfold get_common_values get_common_values_run at h1 ⊢
  obtain ⟨st, hrun, hout⟩ := Option.map_eq_some'.mp h1
  obtain ⟨N, hN1, hN2, hN3, hN4, hN5, hN6⟩ :=
    fetchLoop_spec mc (all_exclude settings exclude) srv fuel 1 initState st hrun
  have hagree : ∀ k, 1 ≤ k → k ≤ N → srv' k = srv k := by
    intro k hk1 hk2
    exact h2 k hk1 (fun j hj1 hj2 => hN4 j hj1 (by omega))
  rw [hN6 srv' hagree]
  simpa using hout

/-- Witness for C6: `srvAbig` answers every requested page like `srvA`
(they differ only from page 3 on, which the run never requests), and the
candidate list is identical. -/
theorem C6_witness :
    (get_common_values "x" 50 settingsPlain ∅ srvA 5 = some ["yes", "no"]) ∧
    get_common_values "x" 50 settingsPlain ∅ srvAbig 5
      = some ["yes", "no"] := by
  refine ⟨by decide, ?_⟩
  refine C6_deterministic "x" 50 settingsPlain ∅ srvA srvAbig 5
    ["yes", "no"] (by decide) ?_
  intro k hk1 hall
  rcases k with _ | _ | _ | n
  · omega
  · rfl
  · rfl
  · exact absurd (hall 2 (by omega) (by omega)) (by decide)

/-- A fallible service: page 1 succeeds with a qualifying record, the
request for page 2 fails with a network error. -/
def srvErr : Nat → Except FetchFailure (List FrequencyRecord)
  | 1 => .ok [⟨"yes", 100⟩]
  | 2 => .error .network
  | _ => .ok []

/-- Claim C7: a page request failure (network error or undecodable body)
propagates out of the page loop at the very page it occurred — the page is
not retried and the failure is not caught locally — and whenever any
configured key's harvest fails, the whole run produces no database action
trace at all: no insert and no commit happens for any key, because all
harvesting completes before the database phase starts. -/
theorem C7_failure_aborts_run (mc : Nat) (ae : Finset String)
    (srvE : Nat → Except FetchFailure (List FrequencyRecord))
    (n fuel : Nat) (e : FetchFailure)
    (h1 : 1 ≤ n) (h2 : n ≤ fuel)
    (h3 : ∀ k, 1 ≤ k → k < n →
      ∃ pg, srvE k = .ok pg ∧ isStopPage mc pg = false)
    (h4 : srvE n = .error e) :
    fetchLoopE mc ae srvE fuel 1 initState = some (.error e) ∧
    (∀ (settings : Settings)
      (srvAll : String → Nat → Except FetchFailure (List FrequencyRecord))
      (keys : List (String × KeyCfg)) (k0 : String) (cfg : KeyCfg)
      (e' : FetchFailure) (acts : List DbAction),
      (k0, cfg) ∈ keys →
      fetchLoopE cfg.min_count (all_exclude settings cfg.exclusions.toFinset)
        (srvAll k0) fuel 1 initState = some (.error e') →
      mainRun settings srvAll fuel keys ≠ some (.ok acts)) := by
  constructor
  · exact fetchLoopE_error mc ae srvE e (n - 1) 1 fuel initState (by omega)
      (fun k hk1 hk2 => h3 k hk1 (by omega))
      (by rwa [show 1 + (n - 1) = n from by omega])
  · intro settings srvAll keys k0 cfg e' acts hmem hloop hmain
    unfold mainRun at hmain
    rcases hh : harvestAll settings srvAll fuel keys with _ | res
    · rw [hh] at hmain
      simp at hmain
    · rw [hh] at hmain
      rcases res with e2 | results
      · simp at hmain
      · obtain ⟨st, hst⟩ :=
          harvestAll_ok_all settings srvAll fuel keys results hh (k0, cfg) hmem
        rw [hloop] at hst
        simp at hst

/-- Witness for C7: the failure of the page 2 request surfaces as the loop's
outcome, and a run whose only key uses this service commits nothing. -/
theorem C7_witness :
    ((1 : Nat) ≤ 2 ∧ (2 : Nat) ≤ 5 ∧ srvErr 2 = .error .network ∧
      srvErr 1 = .ok [⟨"yes", 100⟩] ∧
      isStopPage 50 [(⟨"yes", 100⟩ : FrequencyRecord)] = false) ∧
    (fetchLoopE 50 ∅ srvErr 5 1 initState = some (.error .network) ∧
    (∀ (settings : Settings)
      (srvAll : String → Nat → Except FetchFailure (List FrequencyRecord))
      (keys : List (String × KeyCfg)) (k0 : String) (cfg : KeyCfg)
      (e' : FetchFailure) (acts : List DbAction),
      (k0, cfg) ∈ keys →
      fetchLoopE cfg.min_count (all_exclude settings cfg.exclusions.toFinset)
        (srvAll k0) 5 1 initState = some (.error e') →
      mainRun settings srvAll 5 keys ≠ some (.ok acts))) :=
  ⟨⟨by decide, by decide, rfl, rfl, by decide⟩,
    C7_failure_aborts_run 50 ∅ srvErr 2 5 .network (by decide) (by decide)
      (fun k hk1 hk2 => by
        have hk : k = 1 := by omega
        subst hk
        exact ⟨[⟨"yes", 100⟩], rfl, by decide⟩)
      rfl⟩

/-- Claim C9: an accepted record's value is appended to the candidate list
verbatim: the exact original string, surrounding whitespace included, is
stored; trimming only happens inside the validity test. -/
theorem C9_verbatim_values (mc : Nat) (ae : Finset String) (st : SelState)
    (x : FrequencyRecord)
    (h1 : mc ≤ x.count)
    (h2 : (strip x.value).length ≠ 0)
    (h3 : hasSep x.value = false)
    (h4 : x.value ∉ ae) :
    processRecord mc ae st x = ⟨st.candidates ++ [x.value], st.found⟩ := by
  rw [processRecord_eq, if_neg (Nat.not_lt.mpr h1)]
  have hb : ((strip x.value).length == 0 || hasSep x.value) = false := by
    simp [h2, h3]
  rw [hb]
  simp [h4]

/-- Witness for C9: the value with surrounding whitespace is appended with
its whitespace intact. -/
theorem C9_witness :
    ((50 : Nat) ≤ 100 ∧ (strip " yes ").length ≠ 0 ∧
      hasSep " yes " = false ∧ " yes " ∉ (∅ : Finset String)) ∧
    processRecord 50 ∅ initState ⟨" yes ", 100⟩
      = ⟨initState.candidates ++ [" yes "], initState.found⟩ :=
  ⟨⟨by decide, by decide, by decide, by decide⟩,
    C9_verbatim_values 50 ∅ initState ⟨" yes ", 100⟩
      (by decide) (by decide) (by decide) (by decide)⟩

/-- Settings with no `max_page` entry, so the default 100 applies. -/
def settingsDefault : Settings :=
  ⟨"https://taginfo.example", none, []⟩

/-- Claim C10: the page loop has no page-count cap — a run can halt exactly
when some page is empty or has a sub-threshold leading count, and with no
such page no amount of fuel makes the loop halt; the `max_page` setting does
not influence the run at all (two settings differing only in `max_page` give
identical results), it is only sent as the `rp` URL parameter, and it
defaults to 100 when absent. -/
theorem C10_no_page_cap (mc : Nat) (ae : Finset String)
    (srv : Nat → List FrequencyRecord) (key : String)
    (exclude : Finset String) (fuel : Nat) (s1 s2 : Settings)
    (h : s1.common_exclusions = s2.common_exclusions) :
    ((∃ fuel' st, fetchLoop mc ae srv fuel' 1 initState = some st) ↔
      (∃ n, 1 ≤ n ∧ isStopPage mc (srv n) = true)) ∧
    get_common_values key mc s1 exclude srv fuel
      = get_common_values key mc s2 exclude srv fuel ∧
    (s1.max_page = none → max_page_of s1 = 100) ∧
    (∀ page, requestUrl s1 key page
      = s1.taginfo_url ++ "/values?key=" ++ key
        ++ "&sortname=count&sortorder=desc&rp="
        ++ toString (max_page_of s1) ++ "&page=" ++ toString page) := by
  refine ⟨⟨?_, ?_⟩, ?_, ?_, ?_⟩
  · rintro ⟨fuel', st, hst⟩
    obtain ⟨N, hN1, _, hN3, _, _, _⟩ :=
      fetchLoop_spec mc ae srv fuel' 1 initState st hst
    exact ⟨N, hN1, hN3⟩
  · rintro ⟨n, hn1, hn2⟩
    obtain ⟨st, hst⟩ := fetchLoop_reaches_stop mc ae srv (n - 1) 1 initState
      (by rwa [show 1 + (n - 1) = n from by omega])
    exact ⟨n - 1 + 1, st, hst⟩
  · unfold get_common_values get_common_values_run all_exclude
    rw [h]
  · intro hnone
    simp [max_page_of, hnone]
  · intro page
    rfl

/-- Witness for C10 at the Scenario A service, comparing settings without a
`max_page` entry against settings with `max_page = 2`. -/
theorem C10_witness :
    (settingsDefault.common_exclusions = settingsPlain.common_exclusions) ∧
    (((∃ fuel' st, fetchLoop 50 ∅ srvA fuel' 1 initState = some st) ↔
      (∃ n, 1 ≤ n ∧ isStopPage 50 (srvA n) = true)) ∧
    get_common_values "amenity" 50 settingsDefault ∅ srvA 5
      = get_common_values "amenity" 50 settingsPlain ∅ srvA 5 ∧
    (settingsDefault.max_page = none → max_page_of settingsDefault = 100) ∧
    (∀ page, requestUrl settingsDefault "amenity" page
      = settingsDefault.taginfo_url ++ "/values?key=" ++ "amenity"
        ++ "&sortname=count&sortorder=desc&rp="
        ++ toString (max_page_of settingsDefault) ++ "&page="
        ++ toString page)) :=
  ⟨rfl, C10_no_page_cap 50 ∅ srvA "amenity" ∅ 5 settingsDefault
    settingsPlain rfl⟩

end CommonValues
